import Mathlib

/-!
Shallow embedding of `src/scripts/organize_assets.py`, a batch job that
reorganizes per-animation, per-direction sprite frames into a normalized
4-direction layout, with fallback substitution and horizontal mirroring,
and builds JSON manifests describing the result.

Modelling conventions:
* An image is a list of pixel rows (`Image`); PIL's `FLIP_LEFT_RIGHT`
  transpose becomes reversing each row (`mirror_image`).
* A directory holds a flat list of named files (`Dir`); `glob("*.png")`
  is non-recursive in the source, so only the direct files are modelled.
* A tree of subdirectories (an animation folder with direction subfolders,
  or the `animations` root with one folder per source animation) is an
  association list keyed by subdirectory name; a missing key is a
  nonexistent directory.
* Python dicts built in insertion order (manifests) are association
  lists in the same insertion order.
* Filesystem writes are modelled by returning the written directory
  contents; the destination tree is wiped at the start of each run, so a
  run is a pure function of the input tree.
-/

namespace OrganizeAssets

/-- A pixel, abstracted: mirroring never inspects pixel values. -/
abbrev Pixel := Nat

/-- An image as a list of rows of pixels. -/
abbrev Image := List (List Pixel)

/-- The function `mirror_image`: horizontal (left-right) flip, i.e. `img.transpose(Image.FLIP_LEFT_RIGHT)`
followed by saving under the destination name.  Flipping about the vertical
axis reverses each pixel row. -/
def mirror_image (img : Image) : Image := img.map List.reverse

/-- A file directly inside a directory: its name and image content. -/
structure File where
  name : String
  img : Image
deriving DecidableEq, Repr

/-- A directory's direct contents (glob "*.png" is non-recursive). -/
abbrev Dir := List File

/-- A directory of subdirectories: association list from subdirectory name
to contents; a name not present is a nonexistent subdirectory. -/
abbrev DirTree := List (String × Dir)

/-- Association-list lookup: first pair with the given key (models probing a
path component or a Python dict read). -/
def alookup {α : Type} (l : List (String × α)) (k : String) : Option α :=
  (l.find? (fun p => p.1 == k)).map Prod.snd

/-- String suffix test over the underlying character lists (the behavior of
`str.endswith` / matching the glob tail, stated so that proofs can compute). -/
def strEndsWith (s tail : String) : Bool := tail.data.isSuffixOf s.data

/-- True iff `f.name` ends with `".png"`: the file matches the glob pattern `*.png`. -/
def isPng (f : File) : Bool := strEndsWith f.name ".png"

/-- The glob `candidate_path.glob("*.png")` as a set: the PNG files directly in `d`. -/
def pngFiles (d : Dir) : Dir := d.filter isPng

/-- The test `any(candidate_path.glob("*.png"))`: the directory holds at least one PNG. -/
def hasPng (d : Dir) : Bool := !(pngFiles d).isEmpty

/-- The `FALLBACKS` table: direction fallback chains (east has no chain;
the dict has no other keys, a lookup outside the table is never made). -/
def FALLBACKS (d : String) : List String :=
  if d == "south" then ["south", "south-west", "west"]
  else if d == "west" then ["west", "south-west"]
  else if d == "north" then ["north", "north-west", "north-east", "west"]
  else []

/-- The `for candidate in chain` loop of `find_source_dir`: first chain entry
whose subdirectory exists and holds at least one PNG, with its contents. -/
def findChain (animBase : DirTree) : List String → Option (String × Dir)
  | [] => none
  | c :: rest =>
    match alookup animBase c with
    | some d => if hasPng d then some (c, d) else findChain animBase rest
    | none => findChain animBase rest

/-- "Usable" in the spec's sense, and the loop condition
`candidate_path.is_dir() and any(candidate_path.glob("*.png"))`:
the candidate subdirectory exists and holds at least one PNG. -/
def usableB (animBase : DirTree) (c : String) : Bool :=
  match alookup animBase c with
  | some d => hasPng d
  | none => false

/-- The function `find_source_dir(anim_base, target_dir)`: walk the fallback chain; on
exhaustion, for west only, try the east subdirectory with the mirror flag
set.  Returns (candidate name, its contents, needs_mirror). -/
def find_source_dir (animBase : DirTree) (target : String) :
    Option (String × Dir × Bool) :=
  match findChain animBase (FALLBACKS target) with
  | some (c, d) => some (c, d, false)
  | none =>
    if target == "west" then
      match alookup animBase "east" with
      | some d => if hasPng d then some ("east", d, true) else none
      | none => none
    else none

/-- Lexicographic order on character lists by code point: Python's string
comparison, which `sorted` uses on the filenames. -/
def charListLe : List Char → List Char → Bool
  | [], _ => true
  | _ :: _, [] => false
  | a :: as, b :: bs =>
    if a.toNat < b.toNat then true
    else if b.toNat < a.toNat then false
    else charListLe as bs

/-- Sorting relation used by `sorted(src_dir.glob("*.png"))`: paths in one
directory compare by filename, lexicographically. -/
def byName (a b : File) : Prop := charListLe a.name.data b.name.data = true

instance : DecidableRel byName := fun a b =>
  inferInstanceAs (Decidable (charListLe a.name.data b.name.data = true))

instance : IsTotal File byName := by
  constructor
  intro a b
  unfold byName
  generalize a.name.data = as
  generalize b.name.data = bs
  induction as generalizing bs with
  | nil => left; rfl
  | cons x xs ih =>
    cases bs with
    | nil => right; rfl
    | cons y ys =>
      unfold charListLe
      rcases Nat.lt_trichotomy x.toNat y.toNat with h | h | h
      · left; simp [h]
      · have h1 : ¬ x.toNat < y.toNat := by omega
        have h2 : ¬ y.toNat < x.toNat := by omega
        rcases ih ys with hc | hc
        · left; simp [h1, h2, hc]
        · right; simp [h1, h2, hc]
      · right
        simp [h, (by omega : ¬ x.toNat < y.toNat)]

instance : IsTrans File byName := by
  constructor
  intro a b c
  unfold byName
  generalize a.name.data = as
  generalize b.name.data = bs
  generalize c.name.data = cs
  induction as generalizing bs cs with
  | nil => intro _ _; rfl
  | cons x xs ih =>
    intro h1 h2
    cases bs with
    | nil => exact absurd h1 (by simp [charListLe])
    | cons y ys =>
      cases cs with
      | nil => exact absurd h2 (by simp [charListLe])
      | cons z zs =>
        unfold charListLe at h1 h2 ⊢
        by_cases hxy : x.toNat < y.toNat
        · by_cases hyz : y.toNat < z.toNat
          · simp [lt_trans hxy hyz]
          · by_cases hzy : z.toNat < y.toNat
            · rw [if_neg hyz, if_pos hzy] at h2; cases h2
            · have : x.toNat < z.toNat := by omega
              simp [this]
        · by_cases hyx : y.toNat < x.toNat
          · rw [if_neg hxy, if_pos hyx] at h1; cases h1
          · by_cases hyz : y.toNat < z.toNat
            · have : x.toNat < z.toNat := by omega
              simp [this]
            · by_cases hzy : z.toNat < y.toNat
              · rw [if_neg hyz, if_pos hzy] at h2; cases h2
              · have h1' : charListLe xs ys = true := by
                  rw [if_neg hxy, if_neg hyx] at h1; exact h1
                have h2' : charListLe ys zs = true := by
                  rw [if_neg hyz, if_neg hzy] at h2; exact h2
                rw [if_neg (by omega : ¬ x.toNat < z.toNat),
                  if_neg (by omega : ¬ z.toNat < x.toNat)]
                exact ih ys zs h1' h2'

/-- The list `frames = sorted(src_dir.glob("*.png"))`. -/
def sortFrames (fs : List File) : List File := fs.insertionSort byName

/-- The function `copy_or_mirror_frames(src_dir, dst_dir, mirror)`: copy (or mirror) every
PNG frame, in sorted order, under the same filename; return the written
destination contents and the count `len(frames)` the function returns. -/
def copy_or_mirror_frames (src : Dir) (mirror : Bool) : Dir × Nat :=
  let frames := sortFrames (pngFiles src)
  (frames.map (fun f => ⟨f.name, if mirror then mirror_image f.img else f.img⟩),
   frames.length)

/-- One direction's record in an animation state's `directions` map:
`{"source": ..., "frames": ..., "path": ...}`. -/
structure DirEntry where
  source : String
  frames : Nat
  path : String
deriving DecidableEq, Repr

/-- One game state's record: `{"source": pixellab_name, "directions": {...}}`;
the `directions` dict in insertion order. -/
structure AnimInfo where
  source : String
  directions : List (String × DirEntry)
deriving DecidableEq, Repr

/-- Destination path string recorded in the manifest for a state/direction. -/
def dirPath (charName gameState direction : String) : String :=
  "characters/" ++ charName ++ "/animations/" ++ gameState ++ "/" ++ direction

/-- Loop state of the `for direction in ["south", "west", "north"]` loop in
`process_animations`: destination directories written so far, manifest
entries so far, and (`w_source_dir`, `w_mirrored`) once west was resolved. -/
structure SWNResult where
  outDirs : List (String × Dir)
  entries : List (String × DirEntry)
  wSrc : Option (Dir × Bool)
deriving Repr

/-- One iteration of that loop: resolve the direction, and if a source was
found, copy/mirror its frames and record the manifest entry; remember the
source and mirror flag when the direction is west. -/
def stepDirection (charName gameState : String) (animSrc : DirTree)
    (acc : SWNResult) (direction : String) : SWNResult :=
  match find_source_dir animSrc direction with
  | none => acc
  | some (cname, d, m) =>
    let srcName := if m then "mirror(" ++ cname ++ ")" else cname
    let copied := copy_or_mirror_frames d m
    { outDirs := acc.outDirs ++ [(direction, copied.1)]
      entries := acc.entries ++
        [(direction, ⟨srcName, copied.2, dirPath charName gameState direction⟩)]
      wSrc := if direction == "west" then some (d, m) else acc.wSrc }

/-- The whole `for direction in ["south", "west", "north"]` loop. -/
def swnLoop (charName gameState : String) (animSrc : DirTree) : SWNResult :=
  ["south", "west", "north"].foldl
    (stepDirection charName gameState animSrc) ⟨[], [], none⟩

/-- The east-derivation step after the loop: when west was resolved, copy the
west source unmirrored if it was itself a mirror of east, mirrored otherwise,
and record the entry; when west was not resolved, east is skipped. -/
def eastStep (charName gameState pixellabName : String) (swn : SWNResult) :
    List (String × Dir) × AnimInfo :=
  match swn.wSrc with
  | none => (swn.outDirs, ⟨pixellabName, swn.entries⟩)
  | some (wd, wm) =>
    let copied := copy_or_mirror_frames wd (!wm)
    (swn.outDirs ++ [("east", copied.1)],
     ⟨pixellabName, swn.entries ++
       [("east", ⟨"mirror(west)", copied.2, dirPath charName gameState "east"⟩)]⟩)

/-- The body of `process_animations` for one game state whose source folder
exists: the south/west/north loop followed by the east derivation.
Returns the written destination directories and the state's manifest record. -/
def processState (charName gameState pixellabName : String) (animSrc : DirTree) :
    List (String × Dir) × AnimInfo :=
  eastStep charName gameState pixellabName (swnLoop charName gameState animSrc)

/-- The update `total_frames[d] += d_info["frames"]`: bump the bucket keyed `k` by `n`
(a key outside the table is silently ignored; the generated entries only
ever use the four direction keys, so the dict lookup never fails). -/
def bump (tot : List (String × Nat)) (k : String) (n : Nat) : List (String × Nat) :=
  tot.map (fun p => if p.1 == k then (p.1, p.2 + n) else p)

/-- The initial table `total_frames` with the four directions at 0. -/
def totalsInit : List (String × Nat) :=
  [("south", 0), ("west", 0), ("north", 0), ("east", 0)]

/-- The frame-total aggregation loop at the end of `process_animations`. -/
def computeTotals (anims : List (String × AnimInfo)) : List (String × Nat) :=
  anims.foldl
    (fun tot s => s.2.directions.foldl (fun t e => bump t e.1 e.2.frames) tot)
    totalsInit

/-- The spec's description of one state's contribution to a direction's
total: that state's recorded frame count for the direction (0 when the
direction appears in no entry of the state). -/
def specStateFrames (ents : List (String × DirEntry)) (d : String) : Nat :=
  ((ents.filter (fun e => e.1 == d)).map (fun e => e.2.frames)).sum

/-- The spec's description of `frame_totals`: for each direction, the sum
over every state present in the animations map of that state's recorded
frame count for the direction. -/
def specDirectionTotal (anims : List (String × AnimInfo)) (d : String) : Nat :=
  (anims.map (fun s => specStateFrames s.2.directions d)).sum

/-- The `animations` and `frame_totals` sections of a character manifest,
together with the destination directories written for each state. -/
structure AnimSection where
  outDirs : List (String × List (String × Dir))
  animations : List (String × AnimInfo)
  frame_totals : List (String × Nat)
deriving Repr

/-- One iteration of the `for game_state, pixellab_name in anim_map.items()`
loop: skip the state when its source animation folder does not exist,
otherwise process it and append its outputs and manifest record. -/
def paStep (charName : String) (animRoot : List (String × DirTree))
    (acc : List (String × List (String × Dir)) × List (String × AnimInfo))
    (p : String × String) :
    List (String × List (String × Dir)) × List (String × AnimInfo) :=
  match alookup animRoot p.2 with
  | none => acc
  | some animSrc =>
    let r := processState charName p.1 p.2 animSrc
    (acc.1 ++ [(p.1, r.1)], acc.2 ++ [(p.1, r.2)])

/-- The function `process_animations(char_name, anim_map, manifest)`: for each game state
in the mapping (insertion order), skip it entirely when its source animation
folder does not exist, otherwise process it; finally aggregate frame totals
per direction. `animRoot` is `.../extracted/animations` as a tree of
per-animation folders, each itself a tree of direction subfolders. -/
def process_animations (charName : String) (animMap : List (String × String))
    (animRoot : List (String × DirTree)) : AnimSection :=
  let folded := animMap.foldl (paStep charName animRoot) ([], [])
  { outDirs := folded.1, animations := folded.2,
    frame_totals := computeTotals folded.2 }

/-- The `rotations` section of a character manifest. -/
structure RotSection where
  directions : List String
  path : String
deriving DecidableEq, Repr

/-- The probe `src_file.exists()` / reading a named file in a directory. -/
def findFile (d : Dir) (n : String) : Option Image :=
  (d.find? (fun f => f.name == n)).map File.img

/-- The `for fallback in FALLBACKS[direction]` loop of `process_rotation`:
first fallback name whose `<name>.png` exists in the rotation source. -/
def firstRotFile (rotSrc : Dir) : List String → Option Image
  | [] => none
  | c :: rest =>
    match findFile rotSrc (c ++ ".png") with
    | some img => some img
    | none => firstRotFile rotSrc rest

/-- Resolve one rotation direction: the exact `<direction>.png`, else the
first existing fallback file; `none` means the direction is skipped. -/
def resolveRotFile (rotSrc : Dir) (direction : String) : Option Image :=
  match findFile rotSrc (direction ++ ".png") with
  | some img => some img
  | none => firstRotFile rotSrc (FALLBACKS direction)

/-- A character's source tree: the primary `extracted/rotations` directory,
the alternate `rotations` directory, and the `extracted/animations` root.
`none` models a nonexistent directory. -/
structure CharSrc where
  extractedRotations : Option Dir
  rotationsAlt : Option Dir
  animations : List (String × DirTree)
deriving Repr

/-- The function `process_rotation(char_name, manifest)`: copy south/west/north standing
sprites (with per-direction fallbacks), derive `east.png` by mirroring the
copied `west.png`, and — whenever a rotation source directory was found at
either location — record a fixed four-direction list in the manifest.
Returns the files written to the rotation destination and the optional
`rotations` manifest section. -/
def process_rotation (charName : String) (cs : CharSrc) :
    List (String × Image) × Option RotSection :=
  match cs.extractedRotations.orElse (fun _ => cs.rotationsAlt) with
  | none => ([], none)
  | some rotSrc =>
    let swn := ["south", "west", "north"].foldl
      (fun acc d =>
        match resolveRotFile rotSrc d with
        | none => acc
        | some img => acc ++ [(d ++ ".png", img)]) []
    let out :=
      match (swn.find? (fun p => p.1 == "west.png")).map Prod.snd with
      | some img => swn ++ [("east.png", mirror_image img)]
      | none => swn
    (out, some ⟨["south", "west", "north", "east"],
                "characters/" ++ charName ++ "/rotations"⟩)

/-- One character's full manifest: `{character, rotations?, animations,
frame_totals}` (`rotations` key absent when no rotation source was found). -/
structure CharManifest where
  character : String
  rotations : Option RotSection
  animations : List (String × AnimInfo)
  frame_totals : List (String × Nat)
deriving Repr

/-- Everything written for one character: rotation files, animation
destination directories, and `manifest.json`. -/
structure CharOutput where
  rotationFiles : List (String × Image)
  animationDirs : List (String × List (String × Dir))
  manifest : CharManifest
deriving Repr

/-- The per-character body of `main`'s loop. -/
def processCharacter (charName : String) (animMap : List (String × String))
    (cs : CharSrc) : CharOutput :=
  let rot := process_rotation charName cs
  let animSec := process_animations charName animMap cs.animations
  ⟨rot.1, animSec.outDirs, ⟨charName, rot.2, animSec.animations, animSec.frame_totals⟩⟩

/-- The table `ANIM_MAP_DEFAULT`, in dict insertion order. -/
def ANIM_MAP_DEFAULT : List (String × String) :=
  [("idle", "breathing-idle"), ("attack", "cross-punch"), ("hit", "taking-punch"),
   ("death", "falling-back-death"), ("run", "running-6-frames"),
   ("defense", "crouching"), ("escape", "running-slide"),
   ("idle-alt", "fight-stance-idle-8-frames")]

/-- The table `ANIM_MAP_ARCHER`, merging `ANIM_MAP_DEFAULT` with the archer
overrides: the merge replaces `attack` by `fireball` in place and appends
`attack-melee` at the end. -/
def ANIM_MAP_ARCHER : List (String × String) :=
  [("idle", "breathing-idle"), ("attack", "fireball"), ("hit", "taking-punch"),
   ("death", "falling-back-death"), ("run", "running-6-frames"),
   ("defense", "crouching"), ("escape", "running-slide"),
   ("idle-alt", "fight-stance-idle-8-frames"), ("attack-melee", "cross-punch")]

/-- The table `CHARACTERS`, in dict insertion order. -/
def CHARACTERS : List (String × List (String × String)) :=
  [("armored-warrior", ANIM_MAP_DEFAULT), ("archer", ANIM_MAP_ARCHER),
   ("knight", ANIM_MAP_DEFAULT)]

/-- The input side of the filesystem: each character name's source tree
(a character directory missing from the input simply has no sources). -/
abbrev InputFS := List (String × CharSrc)

/-- The output tree `main` produces under `OUT_DIR`: per-character outputs
(including each `manifest.json`) and the master `manifest.json`. -/
structure OutputTree where
  chars : List (String × CharOutput)
  master : List (String × CharManifest)
deriving Repr

/-- What `main` does after the output wipe, as a pure function of the
input tree: process the fixed character list in order and collect the
per-character and master manifests. -/
def runPipeline (input : InputFS) : OutputTree :=
  let outs := CHARACTERS.map (fun p =>
    (p.1, processCharacter p.1 p.2 ((alookup input p.1).getD ⟨none, none, []⟩)))
  ⟨outs, outs.map (fun q => (q.1, q.2.manifest))⟩

/-- The filesystem as `main` sees it: the (read-only) input tree and the
output tree, `none` before any run.  `SRC_CHARS` and `OUT_DIR` are distinct
paths, so wiping the output never touches the input. -/
structure World where
  input : InputFS
  output : Option OutputTree

/-- One invocation of `main`: delete and recreate `OUT_DIR`, then rebuild
the whole output from the input alone. -/
def mainRun (w : World) : World := ⟨w.input, some (runPipeline w.input)⟩

/-! ### Association-list lemmas -/

theorem alookup_nil {α : Type} (k : String) : alookup ([] : List (String × α)) k = none := rfl

theorem alookup_cons {α : Type} (p : String × α) (l : List (String × α)) (k : String) :
    alookup (p :: l) k = if p.1 == k then some p.2 else alookup l k := by
  by_cases h : p.1 == k <;> simp [alookup, List.find?, h]

theorem alookup_append {α : Type} (l₁ l₂ : List (String × α)) (k : String) :
    alookup (l₁ ++ l₂) k =
      match alookup l₁ k with
      | some v => some v
      | none => alookup l₂ k := by
  induction l₁ with
  | nil => simp [alookup_nil]
  | cons p t ih =>
    by_cases h : p.1 == k <;> simp [alookup_cons, h, ih]

theorem alookup_append_singleton_ne {α : Type} (l : List (String × α))
    (c k : String) (x : α) (h : ¬ c = k) :
    alookup (l ++ [(c, x)]) k = alookup l k := by
  rw [alookup_append]
  cases hf : alookup l k <;> simp [alookup_cons, alookup_nil, h]

theorem alookup_append_singleton_self {α : Type} (l : List (String × α))
    (c : String) (x : α) (h : alookup l c = none) :
    alookup (l ++ [(c, x)]) c = some x := by
  rw [alookup_append, h]
  simp [alookup_cons, alookup_nil]

theorem alookup_eq_none_of_keys_ne {α : Type} (l : List (String × α)) (k : String)
    (h : ∀ p ∈ l, ¬ p.1 = k) : alookup l k = none := by
  induction l with
  | nil => rfl
  | cons p t ih =>
    rw [alookup_cons]
    have hp : ¬ p.1 = k := h p (List.mem_cons_self p t)
    simp only [hp, beq_iff_eq, if_false]
    exact ih (fun q hq => h q (List.mem_cons_of_mem p hq))

/-! ### Fallback-resolver lemmas -/

theorem findChain_none_iff (animBase : DirTree) (chain : List String) :
    findChain animBase chain = none ↔ ∀ c ∈ chain, usableB animBase c = false := by
  induction chain with
  | nil => simp [findChain]
  | cons c rest ih =>
    cases h : alookup animBase c with
    | none =>
      simp only [findChain, h, List.mem_cons, ih]
      constructor
      · intro hall c' hc'
        rcases hc' with hc' | hc'
        · subst hc'; simp [usableB, h]
        · exact hall c' hc'
      · intro hall c' hc'
        exact hall c' (Or.inr hc')
    | some d =>
      cases hp : hasPng d with
      | true =>
        simp only [findChain, h, hp, if_true, List.mem_cons]
        constructor
        · intro hcontra; exact absurd hcontra (by simp)
        · intro hall
          have := hall c (Or.inl rfl)
          simp [usableB, h, hp] at this
      | false =>
        simp only [findChain, h, hp, Bool.false_eq_true, if_false, List.mem_cons, ih]
        constructor
        · intro hall c' hc'
          rcases hc' with hc' | hc'
          · subst hc'; simp [usableB, h, hp]
          · exact hall c' hc'
        · intro hall c' hc'
          exact hall c' (Or.inr hc')

theorem findChain_some_spec (animBase : DirTree) (chain : List String)
    (c : String) (d : Dir) (h : findChain animBase chain = some (c, d)) :
    ∃ pre post, chain = pre ++ c :: post ∧
      (∀ c' ∈ pre, usableB animBase c' = false) ∧
      alookup animBase c = some d ∧ hasPng d = true := by
  induction chain with
  | nil => exact absurd h (by simp [findChain])
  | cons c₀ rest ih =>
    cases h₀ : alookup animBase c₀ with
    | none =>
      simp only [findChain, h₀] at h
      obtain ⟨pre, post, hchain, hpre, hc, hp⟩ := ih h
      refine ⟨c₀ :: pre, post, by rw [hchain, List.cons_append], ?_, hc, hp⟩
      intro c' hc'
      rcases List.mem_cons.mp hc' with hc' | hc'
      · subst hc'; simp [usableB, h₀]
      · exact hpre c' hc'
    | some d₀ =>
      cases hp₀ : hasPng d₀ with
      | true =>
        simp only [findChain, h₀, hp₀, if_true, Option.some.injEq, Prod.mk.injEq] at h
        obtain ⟨hc₀, hd₀⟩ := h
        subst hc₀; subst hd₀
        exact ⟨[], rest, rfl, by simp, h₀, hp₀⟩
      | false =>
        simp only [findChain, h₀, hp₀, Bool.false_eq_true, if_false] at h
        obtain ⟨pre, post, hchain, hpre, hc, hp⟩ := ih h
        refine ⟨c₀ :: pre, post, by rw [hchain, List.cons_append], ?_, hc, hp⟩
        intro c' hc'
        rcases List.mem_cons.mp hc' with hc' | hc'
        · subst hc'; simp [usableB, h₀, hp₀]
        · exact hpre c' hc'

theorem find_source_dir_false_inv (animBase : DirTree) (target c : String) (d : Dir)
    (h : find_source_dir animBase target = some (c, d, false)) :
    ∃ pre post, FALLBACKS target = pre ++ c :: post ∧
      (∀ c' ∈ pre, usableB animBase c' = false) ∧
      alookup animBase c = some d ∧ hasPng d = true := by
  unfold find_source_dir at h
  split at h
  · rename_i c₁ d₁ hf
    simp only [Option.some.injEq, Prod.mk.injEq] at h
    rw [h.1, h.2.1] at hf
    exact findChain_some_spec animBase _ c d hf
  · split at h
    · split at h
      · split at h
        · simp at h
        · simp at h
      · simp at h
    · simp at h

theorem find_source_dir_true_inv (animBase : DirTree) (target c : String) (d : Dir)
    (h : find_source_dir animBase target = some (c, d, true)) :
    target = "west" ∧ c = "east" ∧
      (∀ c' ∈ FALLBACKS "west", usableB animBase c' = false) ∧
      alookup animBase "east" = some d ∧ hasPng d = true := by
  unfold find_source_dir at h
  split at h
  · simp at h
  · rename_i hf
    split at h
    · rename_i ht
      have ht' : target = "west" := by simpa using ht
      subst ht'
      split at h
      · rename_i de he
        split at h
        · rename_i hp
          simp only [Option.some.injEq, Prod.mk.injEq] at h
          refine ⟨rfl, h.1.symm, ?_, by rw [← h.2.1]; exact he, by rw [← h.2.1]; exact hp⟩
          exact (findChain_none_iff animBase (FALLBACKS "west")).mp hf
        · simp at h
      · simp at h
    · simp at h

theorem find_source_dir_none_inv (animBase : DirTree) (target : String)
    (h : find_source_dir animBase target = none) :
    (∀ c' ∈ FALLBACKS target, usableB animBase c' = false) ∧
      (target = "west" → usableB animBase "east" = false) := by
  unfold find_source_dir at h
  split at h
  · simp at h
  · rename_i hf
    refine ⟨(findChain_none_iff animBase (FALLBACKS target)).mp hf, ?_⟩
    intro ht
    subst ht
    rw [if_pos (by rfl)] at h
    split at h
    · rename_i de he
      split at h
      · simp at h
      · rename_i hp
        simp only [Bool.not_eq_true] at hp
        simp [usableB, he, hp]
    · rename_i he
      simp [usableB, he]

/-- A found source always holds at least one PNG, whichever way it was found. -/
theorem find_source_dir_hasPng (animBase : DirTree) (target c : String) (d : Dir)
    (m : Bool) (h : find_source_dir animBase target = some (c, d, m)) :
    hasPng d = true := by
  cases m with
  | false =>
    obtain ⟨pre, post, hchain, hpre, hc, hp⟩ :=
      find_source_dir_false_inv animBase target c d h
    exact hp
  | true => exact (find_source_dir_true_inv animBase target c d h).2.2.2.2

/-! ### Loop lemmas for `process_animations` -/

theorem stepDirection_outDirs_ne (cn gs : String) (ab : DirTree) (acc : SWNResult)
    (dirn k : String) (h : ¬ dirn = k) :
    alookup (stepDirection cn gs ab acc dirn).outDirs k = alookup acc.outDirs k := by
  unfold stepDirection
  split
  · rfl
  · exact alookup_append_singleton_ne _ _ _ _ h

theorem stepDirection_entries_ne (cn gs : String) (ab : DirTree) (acc : SWNResult)
    (dirn k : String) (h : ¬ dirn = k) :
    alookup (stepDirection cn gs ab acc dirn).entries k = alookup acc.entries k := by
  unfold stepDirection
  split
  · rfl
  · exact alookup_append_singleton_ne _ _ _ _ h

theorem stepDirection_wSrc_ne (cn gs : String) (ab : DirTree) (acc : SWNResult)
    (dirn : String) (h : ¬ dirn = "west") :
    (stepDirection cn gs ab acc dirn).wSrc = acc.wSrc := by
  unfold stepDirection
  split
  · rfl
  · simp [h]

theorem stepDirection_wSrc_west (cn gs : String) (ab : DirTree) (acc : SWNResult) :
    (stepDirection cn gs ab acc "west").wSrc =
      match find_source_dir ab "west" with
      | none => acc.wSrc
      | some x => some (x.2.1, x.2.2) := by
  unfold stepDirection
  cases hf : find_source_dir ab "west" with
  | none => rfl
  | some x =>
    obtain ⟨c, d, m⟩ := x
    simp

theorem swnLoop_eq (cn gs : String) (ab : DirTree) :
    swnLoop cn gs ab =
      stepDirection cn gs ab
        (stepDirection cn gs ab
          (stepDirection cn gs ab ⟨[], [], none⟩ "south") "west") "north" := rfl

theorem swnLoop_wSrc (cn gs : String) (ab : DirTree) :
    (swnLoop cn gs ab).wSrc =
      (find_source_dir ab "west").map (fun x => (x.2.1, x.2.2)) := by
  rw [swnLoop_eq, stepDirection_wSrc_ne _ _ _ _ _ (by decide),
    stepDirection_wSrc_west, stepDirection_wSrc_ne _ _ _ _ _ (by decide)]
  cases hf : find_source_dir ab "west" with
  | none => rfl
  | some x => rfl

theorem swnLoop_outDirs_east (cn gs : String) (ab : DirTree) :
    alookup (swnLoop cn gs ab).outDirs "east" = none := by
  rw [swnLoop_eq, stepDirection_outDirs_ne _ _ _ _ _ _ (by decide),
    stepDirection_outDirs_ne _ _ _ _ _ _ (by decide),
    stepDirection_outDirs_ne _ _ _ _ _ _ (by decide)]
  rfl

theorem swnLoop_entries_east (cn gs : String) (ab : DirTree) :
    alookup (swnLoop cn gs ab).entries "east" = none := by
  rw [swnLoop_eq, stepDirection_entries_ne _ _ _ _ _ _ (by decide),
    stepDirection_entries_ne _ _ _ _ _ _ (by decide),
    stepDirection_entries_ne _ _ _ _ _ _ (by decide)]
  rfl

/-- What `processState` does about east, as a function of how west resolved:
nothing when west is unresolved, otherwise an appended output directory and
manifest entry built from the west source and the inverted mirror flag. -/
theorem processState_east (cn gs pn : String) (ab : DirTree) :
    alookup (processState cn gs pn ab).1 "east" =
      (find_source_dir ab "west").map
        (fun x => (copy_or_mirror_frames x.2.1 (!x.2.2)).1) ∧
    alookup (processState cn gs pn ab).2.directions "east" =
      (find_source_dir ab "west").map
        (fun x => (⟨"mirror(west)", (copy_or_mirror_frames x.2.1 (!x.2.2)).2,
          dirPath cn gs "east"⟩ : DirEntry)) := by
  unfold processState eastStep
  have hw := swnLoop_wSrc cn gs ab
  cases hf : find_source_dir ab "west" with
  | none =>
    rw [hf] at hw
    simp only [Option.map_none'] at hw
    rw [hw]
    exact ⟨swnLoop_outDirs_east cn gs ab, swnLoop_entries_east cn gs ab⟩
  | some x =>
    obtain ⟨c, d, m⟩ := x
    rw [hf] at hw
    simp only [Option.map_some'] at hw
    rw [hw]
    simp only [Option.map_some']
    constructor
    · exact alookup_append_singleton_self _ _ _ (swnLoop_outDirs_east cn gs ab)
    · exact alookup_append_singleton_self _ _ _ (swnLoop_entries_east cn gs ab)

/-! ### Copy/mirror lemmas -/

theorem copy_frames_no_mirror (d : Dir) :
    (copy_or_mirror_frames d false).1 = sortFrames (pngFiles d) := by
  unfold copy_or_mirror_frames
  simp only [Bool.false_eq_true, if_false]
  exact List.map_id' _

theorem copy_frames_mirror (d : Dir) :
    (copy_or_mirror_frames d true).1 =
      (sortFrames (pngFiles d)).map (fun f => ⟨f.name, mirror_image f.img⟩) := by
  unfold copy_or_mirror_frames
  simp

theorem copy_frames_length (d : Dir) (m : Bool) :
    (copy_or_mirror_frames d m).1.length = (copy_or_mirror_frames d m).2 := by
  unfold copy_or_mirror_frames
  simp

theorem sortFrames_perm (fs : List File) : (sortFrames fs).Perm fs :=
  List.perm_insertionSort byName fs

theorem sortFrames_length (fs : List File) : (sortFrames fs).length = fs.length :=
  (sortFrames_perm fs).length_eq

theorem copy_frames_count (d : Dir) (m : Bool) :
    (copy_or_mirror_frames d m).2 = (pngFiles d).length := by
  unfold copy_or_mirror_frames
  simp [sortFrames_length]

theorem copy_frames_count_pos (d : Dir) (m : Bool) (h : hasPng d = true) :
    1 ≤ (copy_or_mirror_frames d m).2 := by
  rw [copy_frames_count]
  have : ¬ (pngFiles d).isEmpty = true := by
    simp only [hasPng, Bool.not_eq_eq_eq_not, Bool.not_true] at h
    simp [h]
  rcases hl : pngFiles d with _ | ⟨f, t⟩
  · rw [hl] at this; simp at this
  · simp

/-! ### First-match forward lemmas -/

theorem usableB_some (ab : DirTree) (c : String) (d : Dir)
    (h : alookup ab c = some d) : usableB ab c = hasPng d := by
  unfold usableB
  rw [h]

theorem usableB_none (ab : DirTree) (c : String)
    (h : alookup ab c = none) : usableB ab c = false := by
  unfold usableB
  rw [h]

theorem findChain_first (ab : DirTree) (pre : List String) (c : String)
    (post : List String) (hpre : ∀ c' ∈ pre, usableB ab c' = false)
    (hc : usableB ab c = true) :
    ∃ d, alookup ab c = some d ∧ findChain ab (pre ++ c :: post) = some (c, d) := by
  induction pre with
  | nil =>
    simp only [List.nil_append]
    cases ha : alookup ab c with
    | none => rw [usableB_none ab c ha] at hc; exact absurd hc (by simp)
    | some d =>
      rw [usableB_some ab c d ha] at hc
      refine ⟨d, rfl, ?_⟩
      simp [findChain, ha, hc]
  | cons p pre' ih =>
    have hp : usableB ab p = false := hpre p (List.mem_cons_self p pre')
    obtain ⟨d, hd, hfc⟩ := ih (fun c' hc' => hpre c' (List.mem_cons_of_mem p hc'))
    refine ⟨d, hd, ?_⟩
    simp only [List.cons_append, findChain]
    cases ha : alookup ab p with
    | none => exact hfc
    | some dp =>
      rw [usableB_some ab p dp ha] at hp
      simp [hp, hfc]

theorem find_source_dir_first (ab : DirTree) (target : String) (pre : List String)
    (c : String) (post : List String) (hchain : FALLBACKS target = pre ++ c :: post)
    (hpre : ∀ c' ∈ pre, usableB ab c' = false) (hc : usableB ab c = true) :
    ∃ d, alookup ab c = some d ∧ find_source_dir ab target = some (c, d, false) := by
  obtain ⟨d, hd, hfc⟩ := findChain_first ab pre c post hpre hc
  refine ⟨d, hd, ?_⟩
  unfold find_source_dir
  rw [hchain, hfc]

theorem find_source_dir_east_fallback (ab : DirTree)
    (hchain : ∀ c' ∈ FALLBACKS "west", usableB ab c' = false)
    (heast : usableB ab "east" = true) :
    ∃ d, alookup ab "east" = some d ∧
      find_source_dir ab "west" = some ("east", d, true) := by
  have hfc : findChain ab (FALLBACKS "west") = none :=
    (findChain_none_iff ab (FALLBACKS "west")).mpr hchain
  cases ha : alookup ab "east" with
  | none => rw [usableB_none ab "east" ha] at heast; exact absurd heast (by simp)
  | some d =>
    rw [usableB_some ab "east" d ha] at heast
    refine ⟨d, rfl, ?_⟩
    unfold find_source_dir
    rw [hfc]
    simp [ha, heast]

/-! ### `process_animations` structure lemmas -/

theorem paStep_foldl (cn : String) (animRoot : List (String × DirTree)) :
    ∀ (animMap : List (String × String))
      (acc : List (String × List (String × Dir)) × List (String × AnimInfo)),
    animMap.foldl (paStep cn animRoot) acc =
      (acc.1 ++ (animMap.filter (fun p => (alookup animRoot p.2).isSome)).map
          (fun p => (p.1, (processState cn p.1 p.2 ((alookup animRoot p.2).getD [])).1)),
       acc.2 ++ (animMap.filter (fun p => (alookup animRoot p.2).isSome)).map
          (fun p => (p.1, (processState cn p.1 p.2 ((alookup animRoot p.2).getD [])).2))) := by
  intro animMap
  induction animMap with
  | nil => intro acc; simp
  | cons p t ih =>
    intro acc
    rw [List.foldl_cons, ih]
    cases h : alookup animRoot p.2 with
    | none =>
      have hstep : paStep cn animRoot acc p = acc := by
        unfold paStep; rw [h]
      rw [hstep]
      simp [List.filter_cons, h]
    | some animSrc =>
      have hstep : paStep cn animRoot acc p =
          (acc.1 ++ [(p.1, (processState cn p.1 p.2 animSrc).1)],
           acc.2 ++ [(p.1, (processState cn p.1 p.2 animSrc).2)]) := by
        unfold paStep; rw [h]
      rw [hstep]
      simp [List.filter_cons, h, List.append_assoc]

theorem process_animations_animations_eq (cn : String)
    (animMap : List (String × String)) (animRoot : List (String × DirTree)) :
    (process_animations cn animMap animRoot).animations =
      (animMap.filter (fun p => (alookup animRoot p.2).isSome)).map
        (fun p => (p.1, (processState cn p.1 p.2 ((alookup animRoot p.2).getD [])).2)) := by
  unfold process_animations
  rw [paStep_foldl]
  simp

theorem process_animations_outDirs_eq (cn : String)
    (animMap : List (String × String)) (animRoot : List (String × DirTree)) :
    (process_animations cn animMap animRoot).outDirs =
      (animMap.filter (fun p => (alookup animRoot p.2).isSome)).map
        (fun p => (p.1, (processState cn p.1 p.2 ((alookup animRoot p.2).getD [])).1)) := by
  unfold process_animations
  rw [paStep_foldl]
  simp

theorem stepDirection_not_found (cn gs : String) (ab : DirTree) (acc : SWNResult)
    (dirn : String) (h : find_source_dir ab dirn = none) :
    stepDirection cn gs ab acc dirn = acc := by
  unfold stepDirection
  rw [h]

/-- Looking up a non-east direction in a state's manifest record bypasses
the appended east entry. -/
theorem processState_directions_ne_east (cn gs pn : String) (ab : DirTree)
    (k : String) (hk : ¬ "east" = k) :
    alookup (processState cn gs pn ab).2.directions k =
      alookup (swnLoop cn gs ab).entries k := by
  unfold processState eastStep
  split
  · rfl
  · exact alookup_append_singleton_ne _ _ _ _ hk

theorem processState_outDirs_ne_east (cn gs pn : String) (ab : DirTree)
    (k : String) (hk : ¬ "east" = k) :
    alookup (processState cn gs pn ab).1 k =
      alookup (swnLoop cn gs ab).outDirs k := by
  unfold processState eastStep
  split
  · rfl
  · exact alookup_append_singleton_ne _ _ _ _ hk

/-- A primal direction whose resolver found nothing is absent from the
state's manifest record. -/
theorem processState_dir_absent (cn gs pn : String) (ab : DirTree) (d : String)
    (hd : d ∈ (["south", "west", "north"] : List String))
    (h : find_source_dir ab d = none) :
    alookup (processState cn gs pn ab).2.directions d = none := by
  rcases List.mem_cons.mp hd with rfl | hd'
  · rw [processState_directions_ne_east _ _ _ _ _ (by decide), swnLoop_eq,
      stepDirection_entries_ne _ _ _ _ _ _ (by decide),
      stepDirection_entries_ne _ _ _ _ _ _ (by decide),
      stepDirection_not_found _ _ _ _ _ h]
    rfl
  rcases List.mem_cons.mp hd' with rfl | hd''
  · rw [processState_directions_ne_east _ _ _ _ _ (by decide), swnLoop_eq,
      stepDirection_entries_ne _ _ _ _ _ _ (by decide),
      stepDirection_not_found _ _ _ _ _ h,
      stepDirection_entries_ne _ _ _ _ _ _ (by decide)]
    rfl
  rcases List.mem_cons.mp hd'' with rfl | hd₃
  · rw [processState_directions_ne_east _ _ _ _ _ (by decide), swnLoop_eq,
      stepDirection_not_found _ _ _ _ _ h,
      stepDirection_entries_ne _ _ _ _ _ _ (by decide),
      stepDirection_entries_ne _ _ _ _ _ _ (by decide)]
    rfl
  cases hd₃

/-! ### Output/manifest alignment and frame-count positivity -/

theorem stepDirection_align (cn gs : String) (ab : DirTree) (acc : SWNResult)
    (dirn : String)
    (h : acc.outDirs.map (fun p => (p.1, p.2.length)) =
      acc.entries.map (fun p => (p.1, p.2.frames))) :
    (stepDirection cn gs ab acc dirn).outDirs.map (fun p => (p.1, p.2.length)) =
      (stepDirection cn gs ab acc dirn).entries.map (fun p => (p.1, p.2.frames)) := by
  unfold stepDirection
  split
  · exact h
  · simp [h, copy_frames_length]

theorem swnLoop_align (cn gs : String) (ab : DirTree) :
    (swnLoop cn gs ab).outDirs.map (fun p => (p.1, p.2.length)) =
      (swnLoop cn gs ab).entries.map (fun p => (p.1, p.2.frames)) := by
  rw [swnLoop_eq]
  exact stepDirection_align _ _ _ _ _
    (stepDirection_align _ _ _ _ _ (stepDirection_align _ _ _ _ _ rfl))

theorem processState_align (cn gs pn : String) (ab : DirTree) :
    (processState cn gs pn ab).1.map (fun p => (p.1, p.2.length)) =
      (processState cn gs pn ab).2.directions.map (fun p => (p.1, p.2.frames)) := by
  unfold processState eastStep
  split
  · exact swnLoop_align cn gs ab
  · simp [swnLoop_align cn gs ab, copy_frames_length]

theorem alookup_of_map_eq {α β : Type} (g : α → Nat) (gb : β → Nat) :
    ∀ (l₁ : List (String × α)) (l₂ : List (String × β)),
    l₁.map (fun p => (p.1, g p.2)) = l₂.map (fun p => (p.1, gb p.2)) →
    ∀ (k : String) (e : β), alookup l₂ k = some e →
    ∃ od, alookup l₁ k = some od ∧ g od = gb e := by
  intro l₁
  induction l₁ with
  | nil =>
    intro l₂ heq k e he
    cases l₂ with
    | nil => rw [alookup_nil] at he; cases he
    | cons q t₂ => simp at heq
  | cons p t ih =>
    intro l₂ heq k e he
    cases l₂ with
    | nil => simp at heq
    | cons q t₂ =>
      simp only [List.map_cons, List.cons.injEq, Prod.mk.injEq] at heq
      obtain ⟨⟨hk, hv⟩, htail⟩ := heq
      rw [alookup_cons] at he
      rw [alookup_cons]
      by_cases hq : q.1 == k
      · rw [if_pos hq] at he
        have hp : (p.1 == k) = true := by rw [hk]; exact hq
        rw [if_pos hp]
        refine ⟨p.2, rfl, ?_⟩
        rw [hv]
        simp only [Option.some.injEq] at he
        rw [he]
      · rw [if_neg hq] at he
        have hp : ¬ (p.1 == k) = true := by rw [hk]; exact hq
        rw [if_neg hp]
        exact ih t₂ htail k e he

theorem stepDirection_entries_pos (cn gs : String) (ab : DirTree) (acc : SWNResult)
    (dirn : String) (h : ∀ q ∈ acc.entries, 1 ≤ q.2.frames) :
    ∀ q ∈ (stepDirection cn gs ab acc dirn).entries, 1 ≤ q.2.frames := by
  unfold stepDirection
  split
  · exact h
  · rename_i cname d m hf
    intro q hq
    rcases List.mem_append.mp hq with hq | hq
    · exact h q hq
    · have hq' : q = (dirn,
          ⟨if m then "mirror(" ++ cname ++ ")" else cname,
           (copy_or_mirror_frames d m).2, dirPath cn gs dirn⟩) := by
        simpa using hq
      rw [hq']
      exact copy_frames_count_pos d m (find_source_dir_hasPng ab dirn cname d m hf)

theorem processState_entries_pos (cn gs pn : String) (ab : DirTree) :
    ∀ q ∈ (processState cn gs pn ab).2.directions, 1 ≤ q.2.frames := by
  have hbase : ∀ q ∈ (swnLoop cn gs ab).entries, 1 ≤ q.2.frames := by
    rw [swnLoop_eq]
    refine stepDirection_entries_pos _ _ _ _ _
      (stepDirection_entries_pos _ _ _ _ _ (stepDirection_entries_pos _ _ _ _ _ ?_))
    intro q hq
    cases hq
  have hw := swnLoop_wSrc cn gs ab
  unfold processState eastStep
  split
  · exact hbase
  · rename_i wd wm hsome
    rw [hsome] at hw
    intro q hq
    rcases List.mem_append.mp hq with hq | hq
    · exact hbase q hq
    · have hq' : q = ("east",
          ⟨"mirror(west)", (copy_or_mirror_frames wd (!wm)).2,
           dirPath cn gs "east"⟩) := by
        simpa using hq
      rw [hq']
      cases hfind : find_source_dir ab "west" with
      | none => rw [hfind] at hw; cases hw
      | some x =>
        obtain ⟨c, d, m⟩ := x
        rw [hfind] at hw
        simp only [Option.map_some', Option.some.injEq, Prod.mk.injEq] at hw
        have hd : d = wd := hw.1.symm
        subst hd
        exact copy_frames_count_pos d (!wm)
          (find_source_dir_hasPng ab "west" c d m hfind)

/-! ### Frame-total aggregation lemmas -/

theorem bump_cons (p : String × Nat) (rest : List (String × Nat)) (k : String)
    (n : Nat) :
    bump (p :: rest) k n =
      (if p.1 == k then (p.1, p.2 + n) else p) :: bump rest k n := rfl

theorem alookup_bump (t : List (String × Nat)) (k k' : String) (n : Nat) :
    alookup (bump t k n) k' =
      match alookup t k' with
      | none => none
      | some v => some (if k' == k then v + n else v) := by
  induction t with
  | nil => rfl
  | cons p rest ih =>
    rw [bump_cons]
    by_cases hpk : p.1 = k
    · by_cases hpk' : p.1 = k'
      · have hk'k : k' = k := by rw [← hpk', hpk]
        rw [if_pos (by simpa using hpk), alookup_cons, alookup_cons]
        simp [hpk', hk'k]
      · rw [if_pos (by simpa using hpk), alookup_cons, alookup_cons,
          if_neg (by simpa using hpk'), if_neg (by simpa using hpk')]
        exact ih
    · by_cases hpk' : p.1 = k'
      · have hk'k : ¬ k' = k := by rw [← hpk']; exact hpk
        rw [if_neg (by simpa using hpk), alookup_cons, alookup_cons,
          if_pos (by simpa using hpk'), if_pos (by simpa using hpk')]
        simp [hk'k]
      · rw [if_neg (by simpa using hpk), alookup_cons, alookup_cons,
          if_neg (by simpa using hpk'), if_neg (by simpa using hpk')]
        exact ih

theorem entries_fold_bump (d : String) :
    ∀ (ents : List (String × DirEntry)) (t : List (String × Nat)),
    alookup (ents.foldl (fun t e => bump t e.1 e.2.frames) t) d =
      match alookup t d with
      | none => none
      | some v => some (v + specStateFrames ents d) := by
  intro ents
  induction ents with
  | nil =>
    intro t
    simp only [List.foldl_nil, specStateFrames, List.filter_nil, List.map_nil,
      List.sum_nil]
    cases alookup t d <;> simp
  | cons e rest ih =>
    intro t
    rw [List.foldl_cons, ih, alookup_bump]
    by_cases hed : e.1 = d
    · cases ht : alookup t d with
      | none => simp
      | some v =>
        have h1 : (d == e.1) = true := by simp [hed]
        have h2 : (e.1 == d) = true := by simp [hed]
        simp only [h1, if_true, specStateFrames, List.filter_cons, h2,
          List.map_cons, List.sum_cons]
        rw [Nat.add_assoc]
    · cases ht : alookup t d with
      | none => simp
      | some v =>
        have h1 : ¬ (d == e.1) = true := by
          simp only [beq_iff_eq]
          intro hcon
          exact hed hcon.symm
        have h2 : ¬ (e.1 == d) = true := by simpa using hed
        simp only [h1, if_neg, specStateFrames, List.filter_cons, h2]
        simp [specStateFrames]

theorem computeTotals_alookup (anims : List (String × AnimInfo)) (d : String) :
    alookup (computeTotals anims) d =
      match alookup totalsInit d with
      | none => none
      | some v => some (v + specDirectionTotal anims d) := by
  unfold computeTotals
  suffices h : ∀ (l : List (String × AnimInfo)) (t : List (String × Nat)),
      alookup (l.foldl
        (fun tot s => s.2.directions.foldl (fun t e => bump t e.1 e.2.frames) tot) t) d =
        match alookup t d with
        | none => none
        | some v => some (v + specDirectionTotal l d) by
    exact h anims totalsInit
  intro l
  induction l with
  | nil =>
    intro t
    simp only [List.foldl_nil, specDirectionTotal, List.map_nil, List.sum_nil]
    cases alookup t d <;> simp
  | cons s rest ih =>
    intro t
    rw [List.foldl_cons, ih, entries_fold_bump]
    cases ht : alookup t d with
    | none => simp
    | some v =>
      simp only [specDirectionTotal, List.map_cons, List.sum_cons]
      rw [Nat.add_assoc]

/-! ### Rotation-section lemma -/

theorem process_rotation_some_directions (cn : String) (cs : CharSrc)
    (r : RotSection) (h : (process_rotation cn cs).2 = some r) :
    r.directions = ["south", "west", "north", "east"] := by
  unfold process_rotation at h
  split at h
  · cases h
  · have h' : some (⟨["south", "west", "north", "east"],
        "characters/" ++ cn ++ "/rotations"⟩ : RotSection) = some r := h
    cases h'
    rfl

theorem alookup_map_mem {α β : Type} (f : String × α → β) :
    ∀ (l : List (String × α)) (k : String) (v : β),
    alookup (l.map (fun p => (p.1, f p))) k = some v →
    ∃ q ∈ l, v = f q := by
  intro l
  induction l with
  | nil => intro k v h; cases h
  | cons p t ih =>
    intro k v h
    simp only [List.map_cons, alookup_cons] at h
    rcases Bool.eq_false_or_eq_true (p.1 == k) with hk | hk
    · rw [hk, if_pos rfl] at h
      exact ⟨p, List.mem_cons_self p t, (Option.some.inj h).symm⟩
    · rw [hk, if_neg Bool.false_ne_true] at h
      obtain ⟨q, hq, hv⟩ := ih k v h
      exact ⟨q, List.mem_cons_of_mem p hq, hv⟩

theorem alookup_mem {α : Type} :
    ∀ (l : List (String × α)) (k : String) (v : α),
    alookup l k = some v → (k, v) ∈ l := by
  intro l
  induction l with
  | nil => intro k v h; cases h
  | cons p t ih =>
    intro k v h
    rw [alookup_cons] at h
    rcases Bool.eq_false_or_eq_true (p.1 == k) with hk | hk
    · rw [hk, if_pos rfl] at h
      have h1 : p.1 = k := by simpa using hk
      rw [← h1, ← Option.some.inj h]
      exact List.mem_cons_self p t
    · rw [hk, if_neg Bool.false_ne_true] at h
      exact List.mem_cons_of_mem p (ih k v h)

/-! ## Claims -/

/-- C1: for every animation state in which west was resolved, east is derived
from the west source: when west's resolution required the mirror-of-east
fallback (mirror flag true), the west source is the original east directory
and the east output is its PNG frames copied without any mirroring; when west
came from a direct source (mirror flag false), the east output is the
horizontal mirror of the resolved west source's frames.  When west could not
be resolved, no east output directory is written and no east entry appears in
the state's manifest directions. -/
theorem east_derived_from_west (cn gs pn : String) (ab : DirTree) :
    (∀ c d, find_source_dir ab "west" = some (c, d, true) →
      alookup ab "east" = some d ∧
      alookup (processState cn gs pn ab).1 "east" =
        some (sortFrames (pngFiles d))) ∧
    (∀ c d, find_source_dir ab "west" = some (c, d, false) →
      alookup (processState cn gs pn ab).1 "east" =
        some ((sortFrames (pngFiles d)).map (fun f => ⟨f.name, mirror_image f.img⟩))) ∧
    (find_source_dir ab "west" = none →
      alookup (processState cn gs pn ab).1 "east" = none ∧
      alookup (processState cn gs pn ab).2.directions "east" = none) := by
  refine ⟨?_, ?_, ?_⟩
  · intro c d hf
    refine ⟨(find_source_dir_true_inv ab "west" c d hf).2.2.2.1, ?_⟩
    have he := (processState_east cn gs pn ab).1
    rw [hf] at he
    simp only [Option.map_some', Bool.not_true] at he
    rw [he, copy_frames_no_mirror]
  · intro c d hf
    have he := (processState_east cn gs pn ab).1
    rw [hf] at he
    simp only [Option.map_some', Bool.not_false] at he
    rw [he, copy_frames_mirror]
  · intro hf
    have he := processState_east cn gs pn ab
    rw [hf] at he
    simp only [Option.map_none'] at he
    exact ⟨he.1, he.2⟩

/-- C7: a full run is deterministic and idempotent: `main` deletes and
recreates the output tree and rebuilds it as a pure function of the fixed
character table and the input tree, so a second run on unchanged input
yields an identical output tree and manifests, and runs on equal inputs
yield equal outputs. -/
theorem run_deterministic_idempotent (w w₁ w₂ : World) :
    mainRun (mainRun w) = mainRun w ∧
    (w₁.input = w₂.input → (mainRun w₁).output = (mainRun w₂).output) := by
  refine ⟨rfl, ?_⟩
  intro h
  unfold mainRun
  rw [h]

/-- C8: horizontal mirroring is involutive: applying the left-right flip
performed by `mirror_image` twice yields an image pixel-identical to the
original. -/
theorem mirror_image_involutive (img : Image) :
    mirror_image (mirror_image img) = img := by
  simp [mirror_image, List.map_map, Function.comp_def]

/-- C10: whenever an east entry is written to a state's manifest directions,
its source field is the literal string "mirror(west)" — also in the case
where west was itself resolved by mirroring east and the east frames written
are the unmirrored original east files. -/
theorem east_source_field (cn gs pn : String) (ab : DirTree) (e : DirEntry)
    (h : alookup (processState cn gs pn ab).2.directions "east" = some e) :
    e.source = "mirror(west)" := by
  have hd := (processState_east cn gs pn ab).2
  rw [h] at hd
  cases hf : find_source_dir ab "west" with
  | none => rw [hf] at hd; cases hd
  | some x =>
    rw [hf] at hd
    simp only [Option.map_some', Option.some.injEq] at hd
    rw [hd]

theorem east_source_field_witness :
    alookup (processState "c" "idle" "p"
        [("west", [⟨"a.png", [[1, 2]]⟩])]).2.directions "east" =
      some ⟨"mirror(west)", 1, "characters/c/animations/idle/east"⟩ ∧
    (⟨"mirror(west)", 1, "characters/c/animations/idle/east"⟩ : DirEntry).source =
      "mirror(west)" :=
  ⟨by decide, east_source_field "c" "idle" "p" [("west", [⟨"a.png", [[1, 2]]⟩])]
    ⟨"mirror(west)", 1, "characters/c/animations/idle/east"⟩ (by decide)⟩

/-- C2: for each direction in {south, west, north}, the resolver returns the
first entry of the direction's fixed fallback chain whose subdirectory exists
and contains at least one PNG, with mirror flag false — never a later entry
when an earlier one is usable; for west only, when the whole chain is
exhausted, it returns the east subdirectory with mirror flag true when east
is usable; otherwise (east unusable, or an exhausted south/north chain) it
returns not-found. -/
theorem find_source_dir_first_usable (ab : DirTree) (target : String)
    (htarget : target ∈ (["south", "west", "north"] : List String)) :
    FALLBACKS "south" = ["south", "south-west", "west"] ∧
    FALLBACKS "west" = ["west", "south-west"] ∧
    FALLBACKS "north" = ["north", "north-west", "north-east", "west"] ∧
    (∀ pre c post, FALLBACKS target = pre ++ c :: post →
      (∀ c' ∈ pre, usableB ab c' = false) → usableB ab c = true →
      ∃ d, alookup ab c = some d ∧
        find_source_dir ab target = some (c, d, false)) ∧
    ((∀ c' ∈ FALLBACKS target, usableB ab c' = false) →
      (target = "west" → usableB ab "east" = true →
        ∃ d, alookup ab "east" = some d ∧
          find_source_dir ab target = some ("east", d, true)) ∧
      ((¬ target = "west" ∨ usableB ab "east" = false) →
        find_source_dir ab target = none)) := by
  refine ⟨rfl, rfl, rfl, ?_, ?_⟩
  · intro pre c post hchain hpre hc
    exact find_source_dir_first ab target pre c post hchain hpre hc
  · intro hex
    constructor
    · intro ht he
      subst ht
      exact find_source_dir_east_fallback ab hex he
    · intro hcase
      cases hres : find_source_dir ab target with
      | none => rfl
      | some x =>
        obtain ⟨c, d, m⟩ := x
        cases m with
        | false =>
          obtain ⟨pre, post, hchain, hpre, hc, hp⟩ :=
            find_source_dir_false_inv ab target c d hres
          have hcc : usableB ab c = false := hex c (by rw [hchain]; simp)
          rw [usableB_some ab c d hc, hp] at hcc
          cases hcc
        | true =>
          obtain ⟨ht, hcE, -, hE, hp⟩ := find_source_dir_true_inv ab target c d hres
          rcases hcase with hcase | hcase
          · exact absurd ht hcase
          · rw [usableB_some ab "east" d hE, hp] at hcase
            cases hcase

theorem find_source_dir_first_usable_witness :
    FALLBACKS "south" = ["south", "south-west", "west"] ∧
    FALLBACKS "west" = ["west", "south-west"] ∧
    FALLBACKS "north" = ["north", "north-west", "north-east", "west"] ∧
    (∀ pre c post, FALLBACKS "west" = pre ++ c :: post →
      (∀ c' ∈ pre, usableB [("south-west", [⟨"f.png", [[0]]⟩])] c' = false) →
      usableB [("south-west", [⟨"f.png", [[0]]⟩])] c = true →
      ∃ d, alookup [("south-west", [⟨"f.png", [[0]]⟩])] c = some d ∧
        find_source_dir [("south-west", [⟨"f.png", [[0]]⟩])] "west" =
          some (c, d, false)) ∧
    ((∀ c' ∈ FALLBACKS "west",
        usableB [("south-west", [⟨"f.png", [[0]]⟩])] c' = false) →
      ("west" = "west" →
        usableB [("south-west", [⟨"f.png", [[0]]⟩])] "east" = true →
        ∃ d, alookup [("south-west", [⟨"f.png", [[0]]⟩])] "east" = some d ∧
          find_source_dir [("south-west", [⟨"f.png", [[0]]⟩])] "west" =
            some ("east", d, true)) ∧
      ((¬ "west" = "west" ∨
          usableB [("south-west", [⟨"f.png", [[0]]⟩])] "east" = false) →
        find_source_dir [("south-west", [⟨"f.png", [[0]]⟩])] "west" = none)) :=
  find_source_dir_first_usable [("south-west", [⟨"f.png", [[0]]⟩])] "west" (by decide)

/-- C3 counterexample: with an existing but empty rotation source directory,
no source frame is found for any direction and nothing is written, yet the
rotations manifest section still lists all four directions — so a direction
can appear in the manifest although no source frame was found for it. -/
theorem rotations_list_directions_cex :
    (process_rotation "knight" ⟨some [], none, []⟩).1 = [] ∧
    Option.map RotSection.directions
        (process_rotation "knight" ⟨some [], none, []⟩).2 =
      some ["south", "west", "north", "east"] := by decide

/-- C3 (amended): in each animation state's directions map, a direction
appears only if the resolver found a usable source for it — a primal
direction whose resolver returns nothing is absent, and east is absent when
west is unresolved; the rotations manifest section, however, whenever it is
present, lists all four directions unconditionally, regardless of which
rotation sources were found. -/
theorem direction_present_only_if_found (cn gs pn : String) (ab : DirTree)
    (cs : CharSrc) (r : RotSection) :
    (∀ d ∈ (["south", "west", "north"] : List String),
      find_source_dir ab d = none →
      alookup (processState cn gs pn ab).2.directions d = none) ∧
    (find_source_dir ab "west" = none →
      alookup (processState cn gs pn ab).2.directions "east" = none) ∧
    ((process_rotation cn cs).2 = some r →
      r.directions = ["south", "west", "north", "east"]) := by
  refine ⟨?_, ?_, ?_⟩
  · intro d hd h
    exact processState_dir_absent cn gs pn ab d hd h
  · intro h
    have he := (processState_east cn gs pn ab).2
    rw [h] at he
    simpa using he
  · intro h
    exact process_rotation_some_directions cn cs r h

/-- C4: a game state whose mapped source-animation folder does not exist is
skipped entirely: the manifest's animations map consists of exactly the
mapping entries whose folder exists, processed in order (so the other states
still get processed), and a state all of whose mapping entries point at a
missing folder is absent from the animations map — not present with an empty
directions map. -/
theorem missing_state_skipped (cn : String) (animMap : List (String × String))
    (animRoot : List (String × DirTree)) :
    (process_animations cn animMap animRoot).animations =
      (animMap.filter (fun p => (alookup animRoot p.2).isSome)).map
        (fun p => (p.1, (processState cn p.1 p.2 ((alookup animRoot p.2).getD [])).2)) ∧
    (∀ gs : String,
      (∀ pn, (gs, pn) ∈ animMap → alookup animRoot pn = none) →
      alookup (process_animations cn animMap animRoot).animations gs = none) := by
  refine ⟨process_animations_animations_eq cn animMap animRoot, ?_⟩
  intro gs hall
  rw [process_animations_animations_eq]
  apply alookup_eq_none_of_keys_ne
  intro p hp hk
  obtain ⟨q, hq, hpq⟩ := List.mem_map.mp hp
  obtain ⟨hqmem, hqsome⟩ := List.mem_filter.mp hq
  have hq1 : q.1 = gs := by rw [← hpq] at hk; exact hk
  have hmem : (gs, q.2) ∈ animMap := by
    rw [← hq1]
    exact hqmem
  have hnone := hall q.2 hmem
  rw [hnone] at hqsome
  simp at hqsome

/-- C5: the frame copier transfers exactly the PNG files directly in the
source directory (non-PNG files ignored) in lexicographic filename order,
writing each under its own filename; the count it returns equals the number
of those PNG files and is also the number of files written; and every frames
value recorded in a state's manifest equals the number of files written to
the corresponding destination directory. -/
theorem copy_frames_spec (src : Dir) (m : Bool) (cn gs pn : String) (ab : DirTree) :
    (copy_or_mirror_frames src m).2 = (pngFiles src).length ∧
    pngFiles src = src.filter isPng ∧
    (copy_or_mirror_frames src m).1.map File.name =
      (sortFrames (pngFiles src)).map File.name ∧
    (sortFrames (pngFiles src)).Perm (pngFiles src) ∧
    List.Sorted byName (sortFrames (pngFiles src)) ∧
    (copy_or_mirror_frames src m).1.length = (copy_or_mirror_frames src m).2 ∧
    (∀ d e, alookup (processState cn gs pn ab).2.directions d = some e →
      ∃ od : Dir, alookup (processState cn gs pn ab).1 d = some od ∧
        od.length = e.frames) := by
  refine ⟨copy_frames_count src m, rfl, ?_, sortFrames_perm _, ?_,
    copy_frames_length src m, ?_⟩
  · unfold copy_or_mirror_frames
    simp [List.map_map, Function.comp_def]
  · unfold sortFrames
    exact List.sorted_insertionSort byName _
  · intro d e he
    exact alookup_of_map_eq (fun od : Dir => od.length) (fun e : DirEntry => e.frames)
      _ _ (processState_align cn gs pn ab) d e he

/-- C6: after all states of a character are processed, frame_totals maps each
of the four directions to the sum, over every state present in the manifest's
animations map, of that state's recorded frame count for that direction
(a direction appearing in no state contributes 0 to the sum). -/
theorem frame_totals_spec (cn : String) (animMap : List (String × String))
    (animRoot : List (String × DirTree)) :
    alookup (process_animations cn animMap animRoot).frame_totals "south" =
      some (specDirectionTotal
        (process_animations cn animMap animRoot).animations "south") ∧
    alookup (process_animations cn animMap animRoot).frame_totals "west" =
      some (specDirectionTotal
        (process_animations cn animMap animRoot).animations "west") ∧
    alookup (process_animations cn animMap animRoot).frame_totals "north" =
      some (specDirectionTotal
        (process_animations cn animMap animRoot).animations "north") ∧
    alookup (process_animations cn animMap animRoot).frame_totals "east" =
      some (specDirectionTotal
        (process_animations cn animMap animRoot).animations "east") := by
  have heq : (process_animations cn animMap animRoot).frame_totals =
      computeTotals (process_animations cn animMap animRoot).animations := rfl
  have key : ∀ d : String, alookup totalsInit d = some 0 →
      alookup (process_animations cn animMap animRoot).frame_totals d =
        some (specDirectionTotal
          (process_animations cn animMap animRoot).animations d) := by
    intro d h0
    rw [heq, computeTotals_alookup, h0]
    simp
  exact ⟨key "south" rfl, key "west" rfl, key "north" rfl, key "east" rfl⟩

/-- C9: every direction entry present in any state's directions map of the
animations manifest records at least one frame. -/
theorem manifest_frames_positive (cn : String) (animMap : List (String × String))
    (animRoot : List (String × DirTree)) (gs : String) (info : AnimInfo)
    (d : String) (e : DirEntry)
    (hstate : alookup (process_animations cn animMap animRoot).animations gs = some info)
    (hdir : alookup info.directions d = some e) :
    1 ≤ e.frames := by
  rw [process_animations_animations_eq] at hstate
  obtain ⟨q, hq, hinfo⟩ := alookup_map_mem
    (fun p => (processState cn p.1 p.2 ((alookup animRoot p.2).getD [])).2)
    _ gs info hstate
  subst hinfo
  exact processState_entries_pos cn q.1 q.2 ((alookup animRoot q.2).getD [])
    (d, e) (alookup_mem _ d e hdir)

theorem manifest_frames_positive_witness :
    1 ≤ (⟨"south", 1, "characters/c/animations/idle/south"⟩ : DirEntry).frames :=
  manifest_frames_positive "c" [("idle", "breathing-idle")]
    [("breathing-idle", [("south", [⟨"a.png", [[1]]⟩])])] "idle"
    ⟨"breathing-idle", [("south", ⟨"south", 1, "characters/c/animations/idle/south"⟩)]⟩
    "south" ⟨"south", 1, "characters/c/animations/idle/south"⟩
    (by decide) (by decide)

end OrganizeAssets
